import Mathlib

set_option maxHeartbeats 1000000

namespace CITestShield

/-!
Verification of the Mbed CI Test Shield SPI/I2C test suite against its
design specification.  The host-verification channel logic
(`assert_next_message_from_host`, `greentea_send_kv` call patterns), the
test data (`standardMessageBytes`, `standardMessageUint16s`), the receive
buffer pattern counting, and the I2C test checks are embedded from the
source files.  The asynchronous transfer engine itself (the mbed `SPI`
class: `transfer`, `abort_transfer`, queueing, completion callbacks) and
the greentea / I2C peripheral libraries are external collaborators not
present in the source tree; those parts are modelled from the spec, as
marked on each such definition.
-/

/-! ## Transfer engine model -/

/-- Modelled from the spec: mbed SPI asynchronous event flag
`SPI_EVENT_ERROR` (the mbed HAL header is not in the source tree). -/
def SPI_EVENT_ERROR : Nat := 2

/-- Modelled from the spec: mbed SPI asynchronous event flag
`SPI_EVENT_COMPLETE`, delivered to the completion callback when a queued
transfer finishes normally. -/
def SPI_EVENT_COMPLETE : Nat := 4

/-- Modelled from the spec: mbed SPI asynchronous event flag
`SPI_EVENT_RX_OVERFLOW`. -/
def SPI_EVENT_RX_OVERFLOW : Nat := 8

/-- Modelled from the spec: mbed SPI asynchronous event mask
`SPI_EVENT_ALL`, the union of the error, complete and overflow flags,
used by `async_queue_and_abort` when registering its callbacks. -/
def SPI_EVENT_ALL : Nat := SPI_EVENT_ERROR ||| SPI_EVENT_COMPLETE ||| SPI_EVENT_RX_OVERFLOW

/-- Modelled from the spec: one queued transfer descriptor held by the
transfer engine: its correlation id (enqueue order), the byte length of
its buffers, and the event mask its completion callback registered
interest in. -/
structure Queued where
  id : Nat
  length : Nat
  eventMask : Nat
deriving DecidableEq, Repr

/-- Modelled from the spec: the terminal outcome of one transfer — the
completion flag, the event flags delivered to the registered callback
(0 when the callback was never invoked), and the number of bytes clocked
before the transfer retired. -/
structure Outcome where
  id : Nat
  completed : Bool
  events : Nat
  bytesTransferred : Nat
deriving DecidableEq, Repr

/-- Modelled from the spec: the state of the transfer engine for one bus
handle.  The queue is FIFO with the active transfer at its head;
`progress` is the number of bytes already clocked on the active transfer;
`outcomes` records delivered outcomes in delivery order; `nextId` is the
id the next accepted descriptor will receive. -/
structure EngineState where
  queue : List Queued
  progress : Nat
  outcomes : List Outcome
  nextId : Nat
deriving DecidableEq, Repr

/-- Modelled from the spec: the commands driving the engine — enqueueing a
transfer of a given length with a callback event mask, one word-clock step
of the background hardware on the active transfer, and aborting the
active transfer (`SPI::abort_transfer`). -/
inductive Cmd where
  | enqueue (length eventMask : Nat)
  | clock
  | abortActive
deriving DecidableEq, Repr

/-- Modelled from the spec: one step of the transfer engine.
A zero-length descriptor is rejected synchronously and never reaches the
queue.  A clock step advances the active (head) transfer by one byte and,
when the byte count reaches the length, retires it with a completed
outcome whose delivered events are the completion flag masked by the
registered interest.  Aborting retires the head immediately with no
completion flag and no delivered events (the callback is not invoked, so
the observed event value stays 0), the byte count being the bytes clocked
so far; the next queued transfer then becomes the head (active).  Abort
and clock on an empty queue are no-ops. -/
def step (s : EngineState) : Cmd → EngineState
  | .enqueue len mask =>
    if len = 0 then s
    else { s with queue := s.queue ++ [⟨s.nextId, len, mask⟩], nextId := s.nextId + 1 }
  | .clock =>
    match s.queue with
    | [] => s
    | t :: rest =>
      if s.progress + 1 = t.length then
        { queue := rest, progress := 0,
          outcomes := s.outcomes ++ [⟨t.id, true, SPI_EVENT_COMPLETE &&& t.eventMask, t.length⟩],
          nextId := s.nextId }
      else { s with progress := s.progress + 1 }
  | .abortActive =>
    match s.queue with
    | [] => s
    | t :: rest =>
      { queue := rest, progress := 0,
        outcomes := s.outcomes ++ [⟨t.id, false, 0, s.progress⟩],
        nextId := s.nextId }

/-- Modelled from the spec: run the engine over a list of commands. -/
def run (s : EngineState) : List Cmd → EngineState
  | [] => s
  | c :: cs => run (step s c) cs

/-- Modelled from the spec: the engine before any transfer is submitted. -/
def initState : EngineState := ⟨[], 0, [], 0⟩

/-- The outcome a transfer retires with when it completes normally. -/
def completeOutcome (t : Queued) : Outcome :=
  ⟨t.id, true, SPI_EVENT_COMPLETE &&& t.eventMask, t.length⟩

@[simp] theorem run_nil (s : EngineState) : run s [] = s := rfl

@[simp] theorem run_cons (s : EngineState) (c : Cmd) (cs : List Cmd) :
    run s (c :: cs) = run (step s c) cs := rfl

theorem run_append (a b : List Cmd) (s : EngineState) :
    run s (a ++ b) = run (run s a) b := by
  induction a generalizing s with
  | nil => simp
  | cons c cs ih => simp [ih]

/-- Clocking `k` times on a state whose head transfer still has more than
`k` bytes to go just advances the progress counter. -/
theorem run_clocks_below (k : Nat) (t : Queued) (rest : List Queued)
    (p : Nat) (outs : List Outcome) (n : Nat) (h : p + k < t.length) :
    run ⟨t :: rest, p, outs, n⟩ (List.replicate k Cmd.clock)
      = ⟨t :: rest, p + k, outs, n⟩ := by
  induction k generalizing p with
  | zero => simp
  | succ k ih =>
    have hne : ¬ (p + 1 = t.length) := by omega
    have hstep : step ⟨t :: rest, p, outs, n⟩ Cmd.clock = ⟨t :: rest, p + 1, outs, n⟩ := by
      simp [step, hne]
    rw [List.replicate_succ, run_cons, hstep]
    have := ih (p + 1) (by omega)
    rw [this]
    congr 1
    omega

/-- Clocking exactly the remaining byte count on the head transfer retires
it with a completed outcome and advances the queue. -/
theorem run_clocks_complete (d : Nat) (t : Queued) (rest : List Queued)
    (p : Nat) (outs : List Outcome) (n : Nat)
    (hd : p + d = t.length) (h1 : 1 ≤ d) :
    run ⟨t :: rest, p, outs, n⟩ (List.replicate d Cmd.clock)
      = ⟨rest, 0, outs ++ [completeOutcome t], n⟩ := by
  induction d generalizing p with
  | zero => omega
  | succ d ih =>
    rw [List.replicate_succ, run_cons]
    by_cases hz : d = 0
    · subst hz
      have heq : p + 1 = t.length := by omega
      have hstep : step ⟨t :: rest, p, outs, n⟩ Cmd.clock
          = ⟨rest, 0, outs ++ [completeOutcome t], n⟩ := by
        simp [step, heq, completeOutcome]
      rw [hstep]
      simp
    · have hne : ¬ (p + 1 = t.length) := by omega
      have hstep : step ⟨t :: rest, p, outs, n⟩ Cmd.clock = ⟨t :: rest, p + 1, outs, n⟩ := by
        simp [step, hne]
      rw [hstep]
      exact ih (p + 1) (by omega) (by omega)

/-- Clocking the total byte count of the whole queue from a fresh head
retires every queued transfer in order, each with a completed outcome. -/
theorem run_clocks_complete_all (q : List Queued) (outs : List Outcome) (n : Nat)
    (hpos : ∀ t ∈ q, 0 < t.length) :
    run ⟨q, 0, outs, n⟩ (List.replicate ((q.map Queued.length).sum) Cmd.clock)
      = ⟨[], 0, outs ++ q.map completeOutcome, n⟩ := by
  induction q generalizing outs with
  | nil => simp
  | cons t q ih =>
    have hlen : ((t :: q).map Queued.length).sum = t.length + (q.map Queued.length).sum := by
      simp
    rw [hlen, List.replicate_add, run_append]
    have h1 : run ⟨t :: q, 0, outs, n⟩ (List.replicate t.length Cmd.clock)
        = ⟨q, 0, outs ++ [completeOutcome t], n⟩ := by
      exact run_clocks_complete t.length t q 0 outs n (by omega)
        (hpos t (by simp))
    rw [h1, ih (outs ++ [completeOutcome t]) (fun u hu => hpos u (by simp [hu]))]
    simp

/-- The queue entries created by enqueueing the lengths `Ls` starting from
id `n`, all with the same event mask. -/
def queuedFrom (n mask : Nat) : List Nat → List Queued
  | [] => []
  | L :: Ls => ⟨n, L, mask⟩ :: queuedFrom (n + 1) mask Ls

theorem run_enqueues (Ls : List Nat) (mask : Nat) (q : List Queued)
    (p : Nat) (outs : List Outcome) (n : Nat) (hpos : ∀ L ∈ Ls, 0 < L) :
    run ⟨q, p, outs, n⟩ (Ls.map (fun L => Cmd.enqueue L mask))
      = ⟨q ++ queuedFrom n mask Ls, p, outs, n + Ls.length⟩ := by
  induction Ls generalizing q n with
  | nil => simp [queuedFrom]
  | cons L Ls ih =>
    have hL : ¬ (L = 0) := by
      have := hpos L (by simp)
      omega
    have hstep : step ⟨q, p, outs, n⟩ (Cmd.enqueue L mask)
        = ⟨q ++ [⟨n, L, mask⟩], p, outs, n + 1⟩ := by
      simp [step, hL]
    rw [List.map_cons, run_cons, hstep]
    have ih2 := ih (q ++ [⟨n, L, mask⟩]) (n + 1)
      (fun M hM => hpos M (List.mem_cons_of_mem _ hM))
    rw [ih2]
    simp [queuedFrom]
    omega

/-! ## FIFO / dispatch-order invariant -/

/-- The FIFO invariant of the engine: the delivered outcomes carry the ids
0, 1, 2, ... in order, the queue behind them carries the following ids in
order, and `nextId` is the total count.  In particular the active (head)
transfer always has the smallest not-yet-retired id. -/
def EngineInv (s : EngineState) : Prop :=
  s.outcomes.map Outcome.id = List.range s.outcomes.length
  ∧ s.queue.map Queued.id = List.range' s.outcomes.length s.queue.length
  ∧ s.nextId = s.outcomes.length + s.queue.length

theorem step_inv (s : EngineState) (c : Cmd) (h : EngineInv s) :
    EngineInv (step s c) := by
  obtain ⟨h1, h2, h3⟩ := h
  cases c with
  | enqueue len mask =>
    by_cases hz : len = 0
    · simpa [step, hz] using ⟨h1, h2, h3⟩
    · have hstep : step s (Cmd.enqueue len mask)
          = { s with queue := s.queue ++ [⟨s.nextId, len, mask⟩], nextId := s.nextId + 1 } := by
        simp [step, hz]
      rw [hstep]
      refine ⟨by simpa using h1, ?_, by simp; omega⟩
      simp only [List.map_append, List.map_cons, List.map_nil, List.length_append,
        List.length_cons, List.length_nil, h2, h3]
      rw [List.range'_concat]
      simp
  | clock =>
    match hq : s.queue with
    | [] => simpa [step, hq] using ⟨h1, h2, h3⟩
    | t :: rest =>
      rw [hq] at h2 h3
      simp only [List.length_cons] at h3
      rw [List.length_cons, List.range'_succ, List.map_cons] at h2
      have htid : t.id = s.outcomes.length := by
        have := congrArg (List.headI) h2
        simpa using this
      have hrest : rest.map Queued.id = List.range' (s.outcomes.length + 1) rest.length := by
        have := congrArg (List.tail) h2
        simpa using this
      by_cases hc : s.progress + 1 = t.length
      · refine ⟨?_, ?_, ?_⟩
        · simp [step, hq, hc, h1, htid, List.range_succ]
        · simp [step, hq, hc, hrest]
        · simp [step, hq, hc]
          omega
      · simp only [step, hq, if_neg hc]
        refine ⟨h1, ?_, by simp; omega⟩
        simp only [List.length_cons, List.map_cons, htid, hrest]
        rw [List.range'_succ]
  | abortActive =>
    match hq : s.queue with
    | [] => simpa [step, hq] using ⟨h1, h2, h3⟩
    | t :: rest =>
      rw [hq] at h2 h3
      simp only [List.length_cons] at h3
      rw [List.length_cons, List.range'_succ, List.map_cons] at h2
      have htid : t.id = s.outcomes.length := by
        have := congrArg (List.headI) h2
        simpa using this
      have hrest : rest.map Queued.id = List.range' (s.outcomes.length + 1) rest.length := by
        have := congrArg (List.tail) h2
        simpa using this
      refine ⟨?_, ?_, ?_⟩
      · simp [step, hq, h1, htid, List.range_succ]
      · simp [step, hq, hrest]
      · simp [step, hq]
        omega

theorem run_inv (cmds : List Cmd) (s : EngineState) (h : EngineInv s) :
    EngineInv (run s cmds) := by
  induction cmds generalizing s with
  | nil => simpa
  | cons c cs ih => exact ih (step s c) (step_inv s c h)

theorem initState_inv : EngineInv initState := by
  refine ⟨by simp [initState], by simp [initState], by simp [initState]⟩

/-- In any reachable engine state, if a transfer is currently dispatched
(it is the head of the queue), every transfer with a smaller id — every
earlier-enqueued transfer — has already been retired: its outcome has been
delivered.  This is the sense in which an abort never lets a later-queued
transfer overtake the aborted one. -/
theorem dispatched_after_earlier_retired (cmds : List Cmd) (t : Queued) (j : Nat)
    (ht : (run initState cmds).queue.head? = some t) (hj : j < t.id) :
    j ∈ (run initState cmds).outcomes.map Outcome.id := by
  obtain ⟨h1, h2, _⟩ := run_inv cmds initState initState_inv
  set s := run initState cmds
  match hq : s.queue with
  | [] => rw [hq] at ht; simp at ht
  | u :: rest =>
    rw [hq] at ht h2
    have hu : u = t := by simpa using ht
    subst hu
    rw [List.length_cons, List.range'_succ, List.map_cons] at h2
    have htid : u.id = s.outcomes.length := by
      have := congrArg (List.headI) h2
      simpa using this
    rw [h1, List.mem_range]
    omega

/-! ## Receive buffers and the test pattern (from async_queue_and_abort) -/

/-- The fill byte `TEST_PATTERN` that `async_queue_and_abort` memsets into
both receive buffers before starting the transfers. -/
def TEST_PATTERN : Nat := 0xAF

/-- The receive buffer of a transfer of length `L` after `p` bytes have
been received: the received bytes overwrite the pattern fill from the
front, the remaining `L - p` bytes still hold the fill byte.  This is the
buffer state `async_queue_and_abort` inspects with `std::count`. -/
def rxBufferAfter (L p : Nat) (pat : Nat) (recv : List Nat) : List Nat :=
  recv.take p ++ List.replicate (L - p) pat

/-- Counting the fill byte in a buffer where `p` received bytes (none of
which equal the fill byte) overwrote the front gives exactly `L - p`,
mirroring the `std::count` checks of the test. -/
theorem rxBufferAfter_count (L p : Nat) (pat : Nat) (recv : List Nat)
    (_hlen : p ≤ recv.length) (hne : ∀ c ∈ recv, c ≠ pat) :
    (rxBufferAfter L p pat recv).count pat = L - p := by
  unfold rxBufferAfter
  rw [List.count_append, List.count_replicate]
  have hz : (recv.take p).count pat = 0 := by
    rw [List.count_eq_zero]
    intro hmem
    exact hne pat (List.take_subset p recv hmem) rfl
  simp [hz]

/-! ## Schedules used by async_queue_and_abort -/

/-- A single transfer of length `L` that is aborted after `k` clocked
bytes, as in the abort half of `async_queue_and_abort`. -/
def abortSched (L k mask : Nat) : List Cmd :=
  [Cmd.enqueue L mask] ++ List.replicate k Cmd.clock ++ [Cmd.abortActive]

/-- The command prefix of `async_queue_and_abort` up to and including the
abort: two transfers are queued, `k` bytes of the first are clocked, then
the first is aborted. -/
def queueAbortMid (LA LB k mask : Nat) : List Cmd :=
  [Cmd.enqueue LA mask, Cmd.enqueue LB mask]
    ++ List.replicate k Cmd.clock ++ [Cmd.abortActive]

/-- The full `async_queue_and_abort` scenario: after the abort, the second
transfer is allowed to run to completion. -/
def queueAbortSched (LA LB k mask : Nat) : List Cmd :=
  queueAbortMid LA LB k mask ++ List.replicate LB Cmd.clock

theorem run_queueAbortMid (LA LB k mask : Nat)
    (hk1 : 1 ≤ k) (hk2 : k < LA) (hLB : 0 < LB) :
    run initState (queueAbortMid LA LB k mask)
      = ⟨[⟨1, LB, mask⟩], 0, [⟨0, false, 0, k⟩], 2⟩ := by
  have hLA0 : ¬ (LA = 0) := by omega
  have hLB0 : ¬ (LB = 0) := by omega
  have h0 : run initState [Cmd.enqueue LA mask, Cmd.enqueue LB mask]
      = ⟨[⟨0, LA, mask⟩, ⟨1, LB, mask⟩], 0, [], 2⟩ := by
    simp [run, step, initState, hLA0, hLB0]
  have h1 : run (⟨[⟨0, LA, mask⟩, ⟨1, LB, mask⟩], 0, [], 2⟩ : EngineState)
      (List.replicate k Cmd.clock)
      = ⟨[⟨0, LA, mask⟩, ⟨1, LB, mask⟩], k, [], 2⟩ := by
    have := run_clocks_below k ⟨0, LA, mask⟩ [⟨1, LB, mask⟩] 0 [] 2 (by simp; omega)
    simpa using this
  have h2 : run (⟨[⟨0, LA, mask⟩, ⟨1, LB, mask⟩], k, [], 2⟩ : EngineState) [Cmd.abortActive]
      = ⟨[⟨1, LB, mask⟩], 0, [⟨0, false, 0, k⟩], 2⟩ := by
    simp [run, step]
  calc run initState (queueAbortMid LA LB k mask)
      = run (run (run initState [Cmd.enqueue LA mask, Cmd.enqueue LB mask])
          (List.replicate k Cmd.clock)) [Cmd.abortActive] := by
        unfold queueAbortMid
        rw [run_append, run_append]
    _ = ⟨[⟨1, LB, mask⟩], 0, [⟨0, false, 0, k⟩], 2⟩ := by rw [h0, h1, h2]

theorem run_queueAbortSched (LA LB k mask : Nat)
    (hk1 : 1 ≤ k) (hk2 : k < LA) (hLB : 0 < LB) :
    run initState (queueAbortSched LA LB k mask)
      = ⟨[], 0, [⟨0, false, 0, k⟩, ⟨1, true, SPI_EVENT_COMPLETE &&& mask, LB⟩], 2⟩ := by
  unfold queueAbortSched
  rw [run_append, run_queueAbortMid LA LB k mask hk1 hk2 hLB]
  have := run_clocks_complete LB ⟨1, LB, mask⟩ [] 0 [⟨0, false, 0, k⟩] 2
    (by simp) (by omega)
  simpa [completeOutcome] using this

/-- Claim C1: if a transfer over a receive buffer of length L at least 2
is aborted after at least one word has been clocked and before natural
completion, the resulting outcome has no completion flag and a
bytesTransferred count strictly between 0 and L; equivalently, the
receive buffer still holds between 1 and L-1 fill-pattern bytes, never
zero and never the full length, exactly as `async_queue_and_abort`
asserts with std::count. -/
theorem abort_bounded_outcome (L k mask pat : Nat) (recv : List Nat)
    (hL : 2 ≤ L) (hk1 : 1 ≤ k) (hk2 : k < L)
    (hrl : recv.length = k) (hne : ∀ c ∈ recv, c ≠ pat) :
    (run initState (abortSched L k mask)).outcomes = [⟨0, false, 0, k⟩]
    ∧ 0 < k ∧ k < L
    ∧ (rxBufferAfter L k pat recv).count pat = L - k
    ∧ 0 < (rxBufferAfter L k pat recv).count pat
    ∧ (rxBufferAfter L k pat recv).count pat < L := by
  have hL0 : ¬ (L = 0) := by omega
  have h0 : run initState [Cmd.enqueue L mask] = ⟨[⟨0, L, mask⟩], 0, [], 1⟩ := by
    simp [run, step, initState, hL0]
  have h1 : run (⟨[⟨0, L, mask⟩], 0, [], 1⟩ : EngineState) (List.replicate k Cmd.clock)
      = ⟨[⟨0, L, mask⟩], k, [], 1⟩ := by
    have := run_clocks_below k ⟨0, L, mask⟩ [] 0 [] 1 (by simp; omega)
    simpa using this
  have h2 : run (⟨[⟨0, L, mask⟩], k, [], 1⟩ : EngineState) [Cmd.abortActive]
      = ⟨[], 0, [⟨0, false, 0, k⟩], 1⟩ := by
    simp [run, step]
  have hrun : run initState (abortSched L k mask) = ⟨[], 0, [⟨0, false, 0, k⟩], 1⟩ := by
    unfold abortSched
    rw [run_append, run_append, h0, h1, h2]
  have hcount : (rxBufferAfter L k pat recv).count pat = L - k :=
    rxBufferAfter_count L k pat recv (by omega) hne
  refine ⟨by rw [hrun], by omega, by omega, hcount, by omega, by omega⟩

/-- Claim C1 witness: aborting a 2-byte transfer after 1 clocked byte
leaves 1 byte transferred and 1 pattern byte. -/
theorem abort_bounded_outcome_witness :
    (run initState (abortSched 2 1 14)).outcomes = [⟨0, false, 0, 1⟩]
    ∧ 0 < 1 ∧ 1 < 2
    ∧ (rxBufferAfter 2 1 0xAF [0x01]).count 0xAF = 2 - 1
    ∧ 0 < (rxBufferAfter 2 1 0xAF [0x01]).count 0xAF
    ∧ (rxBufferAfter 2 1 0xAF [0x01]).count 0xAF < 2 :=
  abort_bounded_outcome 2 1 14 0xAF [0x01] (by decide) (by decide) (by decide)
    (by decide) (by decide)

/-- Claim C2: when transfer A (head, active) is aborted while transfer B
is queued behind it, B becomes the active head immediately after the
abort, then runs to normal completion unaffected: the outcomes are A
aborted with a partial byte count and B completed with completed = true
and bytesTransferred equal to its full length, its receive buffer fully
overwritten (no fill-pattern bytes remain). -/
theorem abort_unaffected_successor (LA LB k mask pat : Nat) (recvB : List Nat)
    (hk1 : 1 ≤ k) (hk2 : k < LA) (hLB : 0 < LB)
    (hrl : recvB.length = LB) (hne : ∀ c ∈ recvB, c ≠ pat) :
    (run initState (queueAbortSched LA LB k mask)).outcomes
      = [⟨0, false, 0, k⟩, ⟨1, true, SPI_EVENT_COMPLETE &&& mask, LB⟩]
    ∧ (run initState (queueAbortMid LA LB k mask)).queue = [⟨1, LB, mask⟩]
    ∧ (rxBufferAfter LB LB pat recvB).count pat = 0 := by
  refine ⟨?_, ?_, ?_⟩
  · rw [run_queueAbortSched LA LB k mask hk1 hk2 hLB]
  · rw [run_queueAbortMid LA LB k mask hk1 hk2 hLB]
  · have := rxBufferAfter_count LB LB pat recvB (by omega) hne
    omega

/-- Claim C2 witness: abort a 32-byte transfer after 1 byte with a 3-byte
transfer queued behind it; the successor completes in full. -/
theorem abort_unaffected_successor_witness :
    (run initState (queueAbortSched 32 3 1 14)).outcomes
      = [⟨0, false, 0, 1⟩, ⟨1, true, SPI_EVENT_COMPLETE &&& 14, 3⟩]
    ∧ (run initState (queueAbortMid 32 3 1 14)).queue = [⟨1, 3, 14⟩]
    ∧ (rxBufferAfter 3 3 0xAF [1, 2, 3]).count 0xAF = 0 :=
  abort_unaffected_successor 32 3 1 14 0xAF [1, 2, 3] (by decide) (by decide)
    (by decide) (by decide) (by decide)

/-! ## Order preservation (Claim C3) -/

theorem queuedFrom_map_length (n mask : Nat) (Ls : List Nat) :
    (queuedFrom n mask Ls).map Queued.length = Ls := by
  induction Ls generalizing n with
  | nil => simp [queuedFrom]
  | cons L Ls ih => simp [queuedFrom, ih]

theorem queuedFrom_map_id (n mask : Nat) (Ls : List Nat) :
    (queuedFrom n mask Ls).map Queued.id = List.range' n Ls.length := by
  induction Ls generalizing n with
  | nil => simp [queuedFrom]
  | cons L Ls ih => simp [queuedFrom, ih, List.range'_succ]

/-- Claim C3: enqueueing any sequence of (positive-length) transfers with
no aborts and letting the engine clock them all out produces the
completion outcomes exactly in enqueue order (their ids are 0, 1, 2, ...),
each carrying completed = true; and in any reachable state — including
ones produced by aborting the head — a transfer can only be dispatched
(be the queue head) once every earlier-enqueued transfer has been
retired, i.e. its id already appears among the delivered outcomes. -/
theorem fifo_order_preservation (Ls : List Nat) (mask : Nat)
    (cmds : List Cmd) (t : Queued) (j : Nat)
    (hpos : ∀ L ∈ Ls, 0 < L)
    (ht : (run initState cmds).queue.head? = some t) (hj : j < t.id) :
    (run initState (Ls.map (fun L => Cmd.enqueue L mask)
        ++ List.replicate Ls.sum Cmd.clock)).outcomes
      = (queuedFrom 0 mask Ls).map completeOutcome
    ∧ ((queuedFrom 0 mask Ls).map completeOutcome).map Outcome.id
      = List.range Ls.length
    ∧ ((queuedFrom 0 mask Ls).map completeOutcome).all (fun o => o.completed) = true
    ∧ j ∈ (run initState cmds).outcomes.map Outcome.id := by
  refine ⟨?_, ?_, ?_, dispatched_after_earlier_retired cmds t j ht hj⟩
  · rw [run_append]
    have he := run_enqueues Ls mask [] 0 [] 0 hpos
    unfold initState
    rw [he]
    have hsum : Ls.sum = ((queuedFrom 0 mask Ls).map Queued.length).sum := by
      rw [queuedFrom_map_length]
    rw [hsum]
    have hc := run_clocks_complete_all (queuedFrom 0 mask Ls) [] (0 + Ls.length)
      (by
        intro u hu
        have : u.length ∈ (queuedFrom 0 mask Ls).map Queued.length :=
          List.mem_map_of_mem Queued.length hu
        rw [queuedFrom_map_length] at this
        exact hpos u.length this)
    have hc2 := congrArg EngineState.outcomes hc
    simpa using hc2
  · rw [List.map_map]
    have : (Outcome.id ∘ completeOutcome) = Queued.id := rfl
    rw [this, queuedFrom_map_id]
    rw [List.range_eq_range']
  · rw [List.all_eq_true]
    intro o ho
    rw [List.mem_map] at ho
    obtain ⟨u, _, rfl⟩ := ho
    rfl

/-- Claim C3 witness: two transfers of lengths 2 and 3 complete in
enqueue order; in a run where the head was aborted after two clocks, the
dispatched successor (id 1) finds transfer 0 already retired. -/
theorem fifo_order_preservation_witness :
    (run initState (([2, 3] : List Nat).map (fun L => Cmd.enqueue L 14)
        ++ List.replicate ([2, 3] : List Nat).sum Cmd.clock)).outcomes
      = (queuedFrom 0 14 [2, 3]).map completeOutcome
    ∧ ((queuedFrom 0 14 [2, 3]).map completeOutcome).map Outcome.id
      = List.range ([2, 3] : List Nat).length
    ∧ ((queuedFrom 0 14 [2, 3]).map completeOutcome).all (fun o => o.completed) = true
    ∧ 0 ∈ (run initState [Cmd.enqueue 2 14, Cmd.enqueue 3 14, Cmd.clock,
        Cmd.abortActive]).outcomes.map Outcome.id :=
  fifo_order_preservation [2, 3] 14
    [Cmd.enqueue 2 14, Cmd.enqueue 3 14, Cmd.clock, Cmd.abortActive]
    ⟨1, 3, 14⟩ 0 (by decide) (by decide) (by decide)

/-- Claim C9: in the abort scenario of `async_queue_and_abort`, with both
callbacks registered for SPI_EVENT_ALL, the aborted transfer's callback
is delivered no event flags at all — its observed event value stays 0,
with no aborted or error flag — while the successor's callback receives
exactly SPI_EVENT_COMPLETE. -/
theorem abort_callback_event_flags (LA LB k : Nat)
    (hk1 : 1 ≤ k) (hk2 : k < LA) (hLB : 0 < LB) :
    (run initState (queueAbortSched LA LB k SPI_EVENT_ALL)).outcomes.map Outcome.events
      = [0, SPI_EVENT_COMPLETE]
    ∧ (run initState (queueAbortSched LA LB k SPI_EVENT_ALL)).outcomes
      = [⟨0, false, 0, k⟩, ⟨1, true, SPI_EVENT_COMPLETE, LB⟩]
    ∧ SPI_EVENT_COMPLETE ≠ 0 := by
  have h := run_queueAbortSched LA LB k SPI_EVENT_ALL hk1 hk2 hLB
  have hmask : SPI_EVENT_COMPLETE &&& SPI_EVENT_ALL = SPI_EVENT_COMPLETE := by decide
  rw [hmask] at h
  exact ⟨by rw [h]; rfl, by rw [h], by decide⟩

/-- Claim C9 witness: the 32-byte aborted transfer reports event value 0,
the queued 32-byte successor reports exactly SPI_EVENT_COMPLETE. -/
theorem abort_callback_event_flags_witness :
    (run initState (queueAbortSched 32 32 2 SPI_EVENT_ALL)).outcomes.map Outcome.events
      = [0, SPI_EVENT_COMPLETE]
    ∧ (run initState (queueAbortSched 32 32 2 SPI_EVENT_ALL)).outcomes
      = [⟨0, false, 0, 2⟩, ⟨1, true, SPI_EVENT_COMPLETE, 32⟩]
    ∧ SPI_EVENT_COMPLETE ≠ 0 :=
  abort_callback_event_flags 32 32 2 (by decide) (by decide) (by decide)

/-! ## Host verification channel (from assert_next_message_from_host) -/

/-- A C string modelled as its list of character bytes up to, and not
including, the null terminator.  A well-formed C string contains no null
byte. -/
def validStr (s : List Nat) : Prop := ∀ c ∈ s, c ≠ 0

instance (s : List Nat) : Decidable (validStr s) := by
  unfold validStr
  infer_instance

/-- C strncmp on null-terminated strings, modelled as null-free byte
lists: compares at most n characters, stopping at the first difference or
at the terminator of both strings, returning the difference of the first
differing character pair (the terminator counting as 0). -/
def strncmp : List Nat → List Nat → Nat → Int
  | _, _, 0 => 0
  | [], [], _ + 1 => 0
  | [], b :: _, _ + 1 => 0 - (b : Int)
  | a :: _, [], _ + 1 => (a : Int)
  | a :: as, b :: bs, n + 1 =>
    if a = b then strncmp as bs n else (a : Int) - (b : Int)

/-- The comparison loop of Unity TEST_ASSERT_EQUAL_STRING_LEN on
null-free byte lists: compares at most n characters, stopping when both
strings end, true iff no differing position was found. -/
def unityStrEqLen : List Nat → List Nat → Nat → Bool
  | _, _, 0 => true
  | [], [], _ + 1 => true
  | [], _ :: _, _ + 1 => false
  | _ :: _, [], _ + 1 => false
  | a :: as, b :: bs, n + 1 => a == b && unityStrEqLen as bs n

theorem strncmp_eq_zero_iff (a : List Nat) :
    ∀ (b : List Nat) (n : Nat), validStr a → validStr b →
      (strncmp a b n = 0 ↔ a.take n = b.take n) := by
  induction a with
  | nil =>
    intro b n _ hb
    match n, b with
    | 0, _ => simp [strncmp]
    | n + 1, [] => simp [strncmp]
    | n + 1, c :: bs =>
      have hc : c ≠ 0 := hb c (by simp)
      simp only [strncmp, List.take_nil, List.take_succ_cons]
      constructor
      · intro h
        exfalso
        apply hc
        omega
      · intro h
        simp at h
  | cons x as ih =>
    intro b n ha hb
    match n, b with
    | 0, _ => simp [strncmp]
    | n + 1, [] =>
      have hx : x ≠ 0 := ha x (by simp)
      simp only [strncmp, List.take_nil, List.take_succ_cons]
      constructor
      · intro h
        exfalso
        apply hx
        omega
      · intro h
        simp at h
    | n + 1, c :: bs =>
      by_cases hxc : x = c
      · subst hxc
        rw [show strncmp (x :: as) (x :: bs) (n + 1) = strncmp as bs n from by
          simp [strncmp]]
        rw [List.take_succ_cons, List.take_succ_cons, List.cons_eq_cons]
        rw [ih bs n (fun u hu => ha u (List.mem_cons_of_mem _ hu))
          (fun u hu => hb u (List.mem_cons_of_mem _ hu))]
        simp
      · simp only [strncmp, if_neg hxc, List.take_succ_cons]
        constructor
        · intro h
          exfalso
          apply hxc
          omega
        · intro h
          rw [List.cons_eq_cons] at h
          exact absurd h.1 hxc

theorem unityStrEqLen_iff (a : List Nat) :
    ∀ (b : List Nat) (n : Nat), (unityStrEqLen a b n = true ↔ a.take n = b.take n) := by
  induction a with
  | nil =>
    intro b n
    match n, b with
    | 0, _ => simp [unityStrEqLen]
    | n + 1, [] => simp [unityStrEqLen]
    | n + 1, c :: bs => simp [unityStrEqLen]
  | cons x as ih =>
    intro b n
    match n, b with
    | 0, _ => simp [unityStrEqLen]
    | n + 1, [] => simp [unityStrEqLen]
    | n + 1, c :: bs =>
      simp only [unityStrEqLen, Bool.and_eq_true, beq_iff_eq, List.take_succ_cons,
        List.cons_eq_cons, ih bs n]

/-- strncmp with bound n decides full string equality whenever the first
string is shorter than the bound. -/
theorem strncmp_eq_zero_iff_eq (a b : List Nat) (n : Nat)
    (ha : validStr a) (hb : validStr b) (hlen : a.length < n) :
    strncmp a b n = 0 ↔ a = b := by
  rw [strncmp_eq_zero_iff a b n ha hb]
  have hta : a.take n = a := List.take_of_length_le (by omega)
  rw [hta]
  constructor
  · intro h
    by_cases hbl : b.length ≤ n
    · rwa [List.take_of_length_le hbl] at h
    · exfalso
      have : (b.take n).length = n := by
        rw [List.length_take]
        omega
      rw [← h] at this
      omega
  · intro h
    subst h
    exact (List.take_of_length_le (by omega)).symm

/-- The Unity length-bounded string assertion decides full equality
whenever the expected string is shorter than the bound. -/
theorem unityStrEqLen_iff_eq (a b : List Nat) (n : Nat) (hlen : a.length < n) :
    unityStrEqLen a b n = true ↔ a = b := by
  rw [unityStrEqLen_iff a b n]
  have hta : a.take n = a := List.take_of_length_le (by omega)
  rw [hta]
  constructor
  · intro h
    by_cases hbl : b.length ≤ n
    · rwa [List.take_of_length_le hbl] at h
    · exfalso
      have : (b.take n).length = n := by
        rw [List.length_take]
        omega
      rw [← h] at this
      omega
  · intro h
    subst h
    exact (List.take_of_length_le (by omega)).symm

/-- A key/value message on the greentea host channel. -/
structure HostMessage where
  key : List Nat
  val : List Nat
deriving DecidableEq, Repr

/-- The size of the receive buffers of assert_next_message_from_host:
char receivedKey[64], receivedValue[64]. -/
def hostKeyBufSize : Nat := 64

/-- Modelled from the spec: greentea_parse_kv (greentea client library,
not in the source tree) reads the next host message into the two 64-byte
buffers, so the stored key and value are truncated to at most 63
characters plus the null terminator. -/
def greentea_parse_kv (m : HostMessage) : List Nat × List Nat :=
  (m.key.take (hostKeyBufSize - 1), m.val.take (hostKeyBufSize - 1))

/-- assert_next_message_from_host, from the SPI test source: reads host
messages in order, discarding each whose received key does not
strncmp-match the requested key over sizeof(receivedKey) - 1 = 63
characters; at the first matching message it asserts the received value
against expectedVal over the same 63-character bound and stops, yielding
the value it acted on and the assertion verdict.  Yields none when no
message matches: the while loop never exits and the caller blocks
indefinitely. -/
def assert_next_message_from_host (key expectedVal : List Nat) :
    List HostMessage → Option (List Nat × Bool)
  | [] => none
  | m :: rest =>
    let kv := greentea_parse_kv m
    if strncmp key kv.1 (hostKeyBufSize - 1) = 0 then
      some (kv.2, unityStrEqLen expectedVal kv.2 (hostKeyBufSize - 1))
    else
      assert_next_message_from_host key expectedVal rest

/-- Modelled from the spec: greentea_send_kv emits one key/value message
on the host channel. -/
def greentea_send_kv (key v : List Nat) : HostMessage := ⟨key, v⟩

/-- The request convenience pattern used throughout the SPI test
(host_start_spi_logging, host_print_spi_data,
host_assert_standard_message): send key/requestValue, then await the
matching-key response, asserting its value equals expectedVal. -/
def request (key requestValue expectedVal : List Nat)
    (hostMsgs : List HostMessage) : HostMessage × Option (List Nat × Bool) :=
  (greentea_send_kv key requestValue,
   assert_next_message_from_host key expectedVal hostMsgs)

/-- Byte list of an ASCII string literal. -/
def strBytes (s : String) : List Nat := s.data.map (fun c => c.toNat)

/-- A requested key shorter than the 63-character bound strncmp-matches a
received (truncated) key exactly when the two keys are equal as strings. -/
theorem key_match_iff (key bkey : List Nat) (n : Nat)
    (hk : validStr key) (hb : validStr bkey) (hkl : key.length < n) :
    strncmp key (bkey.take n) n = 0 ↔ key = bkey := by
  have hbt : validStr (bkey.take n) := fun u hu => hb u (List.take_subset n bkey hu)
  rw [strncmp_eq_zero_iff_eq key (bkey.take n) n hk hbt hkl]
  constructor
  · intro h
    by_cases hbl : bkey.length ≤ n
    · rwa [List.take_of_length_le hbl] at h
    · exfalso
      have : (bkey.take n).length = n := by
        rw [List.length_take]
        omega
      rw [← h] at this
      omega
  · intro h
    have hlen2 := congrArg List.length h
    rw [h]
    exact (List.take_of_length_le (by omega)).symm

/-- Claim C4: awaitResponse (assert_next_message_from_host) reads and
discards every message whose key does not match the requested key and
acts on the value of the first message whose key does match, yielding
that value; when no matching message ever arrives it yields nothing (the
loop blocks indefinitely). -/
theorem awaitResponse_drains (key ev : List Nat) (pre rest : List HostMessage)
    (m : HostMessage) (noMatch : List HostMessage)
    (hkv : validStr key) (hkl : key.length < hostKeyBufSize - 1)
    (hpre : ∀ p ∈ pre, validStr p.key ∧ p.key ≠ key)
    (hmk : validStr m.key) (hmkey : m.key = key)
    (hmv : m.val.length ≤ hostKeyBufSize - 1)
    (hnm : ∀ p ∈ noMatch, validStr p.key ∧ p.key ≠ key) :
    assert_next_message_from_host key ev (pre ++ m :: rest)
      = some (m.val, unityStrEqLen ev m.val (hostKeyBufSize - 1))
    ∧ assert_next_message_from_host key ev noMatch = none := by
  have hnone : ∀ (l : List HostMessage), (∀ p ∈ l, validStr p.key ∧ p.key ≠ key) →
      assert_next_message_from_host key ev l = none := by
    intro l hl
    induction l with
    | nil => rfl
    | cons p rest ih =>
      obtain ⟨hpv, hpne⟩ := hl p (by simp)
      have hnomatch : ¬ (strncmp key (p.key.take (hostKeyBufSize - 1)) (hostKeyBufSize - 1) = 0) := by
        rw [key_match_iff key p.key (hostKeyBufSize - 1) hkv hpv hkl]
        exact fun h => hpne h.symm
      simp only [assert_next_message_from_host, greentea_parse_kv, if_neg hnomatch]
      exact ih (fun q hq => hl q (by simp [hq]))
  constructor
  · induction pre with
    | nil =>
      have hmatch : strncmp key (m.key.take (hostKeyBufSize - 1)) (hostKeyBufSize - 1) = 0 := by
        rw [key_match_iff key m.key (hostKeyBufSize - 1) hkv hmk hkl]
        exact hmkey.symm
      have htv : m.val.take (hostKeyBufSize - 1) = m.val := List.take_of_length_le hmv
      simp only [List.nil_append, assert_next_message_from_host, greentea_parse_kv,
        if_pos hmatch, htv]
    | cons p pre ih =>
      obtain ⟨hpv, hpne⟩ := hpre p (by simp)
      have hnomatch : ¬ (strncmp key (p.key.take (hostKeyBufSize - 1)) (hostKeyBufSize - 1) = 0) := by
        rw [key_match_iff key p.key (hostKeyBufSize - 1) hkv hpv hkl]
        exact fun h => hpne h.symm
      simp only [List.cons_append, assert_next_message_from_host, greentea_parse_kv,
        if_neg hnomatch]
      exact ih (fun q hq => hpre q (by simp [hq]))
  · exact hnone noMatch hnm

/-- Claim C4 witness: a non-matching message is drained before the
matching one is acted on, and a stream with no match yields nothing. -/
theorem awaitResponse_drains_witness :
    assert_next_message_from_host [107] [112]
        ([⟨[104], [1]⟩] ++ (⟨[107], [112]⟩ : HostMessage) :: [])
      = some ([112], unityStrEqLen [112] [112] (hostKeyBufSize - 1))
    ∧ assert_next_message_from_host [107] [112] [⟨[104], [2]⟩] = none :=
  awaitResponse_drains [107] [112] [⟨[104], [1]⟩] [] ⟨[107], [112]⟩ [⟨[104], [2]⟩]
    (by decide) (by decide) (by decide) (by decide) (by decide) (by decide) (by decide)

/-- Claim C5: the request pattern sends its key/value message, awaits the
matching-key response, and the verification verdict is false exactly when
the returned value differs from the expected value; a mismatch still
yields a response (the protocol itself succeeded), distinguishing a
verification failure from a protocol failure. -/
theorem request_verifies_expected (key requestValue ev : List Nat)
    (m : HostMessage) (rest : List HostMessage)
    (hkv : validStr key) (hkl : key.length < hostKeyBufSize - 1)
    (hmk : validStr m.key) (hmkey : m.key = key)
    (hevl : ev.length < hostKeyBufSize - 1)
    (hmv : m.val.length ≤ hostKeyBufSize - 1) :
    request key requestValue ev (m :: rest)
      = (⟨key, requestValue⟩,
         some (m.val, unityStrEqLen ev m.val (hostKeyBufSize - 1)))
    ∧ (unityStrEqLen ev m.val (hostKeyBufSize - 1) = false ↔ m.val ≠ ev) := by
  constructor
  · have hmatch : strncmp key (m.key.take (hostKeyBufSize - 1)) (hostKeyBufSize - 1) = 0 := by
      rw [key_match_iff key m.key (hostKeyBufSize - 1) hkv hmk hkl]
      exact hmkey.symm
    have htv : m.val.take (hostKeyBufSize - 1) = m.val := List.take_of_length_le hmv
    simp only [request, greentea_send_kv, assert_next_message_from_host,
      greentea_parse_kv, if_pos hmatch, htv]
  · rw [Bool.eq_false_iff, ne_eq, unityStrEqLen_iff_eq ev m.val (hostKeyBufSize - 1) hevl]
    constructor
    · intro h hc
      exact h hc.symm
    · intro h hc
      exact h hc.symm

/-- Claim C5 witness: the standard-message verification request with the
real protocol strings; the host answering pass verifies, and the verdict
is false exactly when the response value is not pass. -/
theorem request_verifies_expected_witness :
    request (strBytes "verify_standard_message") (strBytes "please") (strBytes "pass")
        ((⟨strBytes "verify_standard_message", strBytes "pass"⟩ : HostMessage) :: [])
      = (⟨strBytes "verify_standard_message", strBytes "please"⟩,
         some (strBytes "pass",
           unityStrEqLen (strBytes "pass") (strBytes "pass") (hostKeyBufSize - 1)))
    ∧ (unityStrEqLen (strBytes "pass") (strBytes "pass") (hostKeyBufSize - 1) = false
        ↔ strBytes "pass" ≠ strBytes "pass") :=
  request_verifies_expected (strBytes "verify_standard_message") (strBytes "please")
    (strBytes "pass") ⟨strBytes "verify_standard_message", strBytes "pass"⟩ []
    (by decide) (by decide) (by decide) (by decide) (by decide) (by decide)

/-- Claim C10: host message matching is bounded to 63 characters, the key
buffer size minus one, for both the key comparison and the value
assertion: any two keys agreeing on their first 63 characters are treated
as matching, and the value assertion succeeds exactly when expected and
received values agree on their first 63 characters. -/
theorem host_match_bounded_63 (key ev : List Nat) (m : HostMessage)
    (rest : List HostMessage)
    (hkv : validStr key) (hmk : validStr m.key)
    (hagree : key.take (hostKeyBufSize - 1) = m.key.take (hostKeyBufSize - 1)) :
    assert_next_message_from_host key ev (m :: rest)
      = some (m.val.take (hostKeyBufSize - 1),
          unityStrEqLen ev (m.val.take (hostKeyBufSize - 1)) (hostKeyBufSize - 1))
    ∧ (unityStrEqLen ev (m.val.take (hostKeyBufSize - 1)) (hostKeyBufSize - 1) = true
        ↔ ev.take (hostKeyBufSize - 1) = m.val.take (hostKeyBufSize - 1)) := by
  constructor
  · have hbt : validStr (m.key.take (hostKeyBufSize - 1)) :=
      fun u hu => hmk u (List.take_subset _ m.key hu)
    have hmatch : strncmp key (m.key.take (hostKeyBufSize - 1)) (hostKeyBufSize - 1) = 0 := by
      rw [strncmp_eq_zero_iff key (m.key.take (hostKeyBufSize - 1)) (hostKeyBufSize - 1) hkv hbt]
      rw [List.take_take]
      simpa using hagree
    simp only [assert_next_message_from_host, greentea_parse_kv, if_pos hmatch]
  · rw [unityStrEqLen_iff ev (m.val.take (hostKeyBufSize - 1)) (hostKeyBufSize - 1)]
    rw [List.take_take]
    simp

/-- Claim C10 witness: two 64-character keys differing only in their 64th
character are treated as matching, and the value assertion is a
63-character-bounded comparison. -/
theorem host_match_bounded_63_witness :
    assert_next_message_from_host (List.replicate 63 97 ++ [98]) [112]
        ((⟨List.replicate 63 97 ++ [99], [112]⟩ : HostMessage) :: [])
      = some (([112] : List Nat).take (hostKeyBufSize - 1),
          unityStrEqLen [112] (([112] : List Nat).take (hostKeyBufSize - 1))
            (hostKeyBufSize - 1))
    ∧ (unityStrEqLen [112] (([112] : List Nat).take (hostKeyBufSize - 1))
          (hostKeyBufSize - 1) = true
        ↔ ([112] : List Nat).take (hostKeyBufSize - 1)
          = ([112] : List Nat).take (hostKeyBufSize - 1)) :=
  host_match_bounded_63 (List.replicate 63 97 ++ [98]) [112]
    ⟨List.replicate 63 97 ++ [99], [112]⟩ []
    (by decide) (by decide) (by decide)

/-! ## Standard message data and wire encoding (from the SPI test source) -/

/-- The standard data message each SPI test sends, as bytes. -/
def standardMessageBytes : List Nat := [0x01, 0x02, 0x04, 0x08]

/-- The standard message packed as 16-bit words; per the source comment,
SPI operates MSB-first regardless of endianness, so the most significant
digits are clocked out first. -/
def standardMessageUint16s : List Nat := [0x0102, 0x0408]

/-- The standard message packed as one 32-bit word. -/
def standardMessageUint32 : Nat := 0x01020408

/-- Modelled from the spec: the bus clocks each word out
most-significant-unit first at the configured word width, so a word of
`wordSize` bytes appears on the wire as its bytes from most to least
significant. -/
def wireBytesOfWord (wordSize w : Nat) : List Nat :=
  (List.range wordSize).map (fun i => w / 256 ^ (wordSize - 1 - i) % 256)

/-- Modelled from the spec: the captured wire bytes of transmitting a list
of words at the given word width (in bytes per word). -/
def wireBytes (wordSize : Nat) (words : List Nat) : List Nat :=
  words.flatMap (wireBytesOfWord wordSize)

/-- Modelled from the spec: the host-side verify_standard_message check:
pass iff the captured wire bytes equal the standard message. -/
def verify_standard_message (captured : List Nat) : Bool :=
  captured == standardMessageBytes

/-- The host response message to a verify_standard_message request. -/
def host_verify_response (captured : List Nat) : HostMessage :=
  ⟨strBytes "verify_standard_message",
   if verify_standard_message captured then strBytes "pass" else strBytes "fail"⟩

/-- Claim C6: transmitting the standard message as two 16-bit words
0x0102, 0x0408 produces the same captured wire bytes 01 02 04 08 as
transmitting it as four 8-bit bytes — the word width affects the
encoding, not the logical content — and the host verification answers
pass for both. -/
theorem word_width_encoding_equivalence :
    wireBytes 2 standardMessageUint16s = standardMessageBytes
    ∧ wireBytes 1 standardMessageBytes = standardMessageBytes
    ∧ wireBytes 2 standardMessageUint16s = wireBytes 1 standardMessageBytes
    ∧ verify_standard_message (wireBytes 2 standardMessageUint16s) = true
    ∧ verify_standard_message (wireBytes 1 standardMessageBytes) = true
    ∧ assert_next_message_from_host (strBytes "verify_standard_message")
        (strBytes "pass") [host_verify_response (wireBytes 2 standardMessageUint16s)]
      = some (strBytes "pass", true)
    ∧ assert_next_message_from_host (strBytes "verify_standard_message")
        (strBytes "pass") [host_verify_response (wireBytes 1 standardMessageBytes)]
      = some (strBytes "pass", true) := by
  refine ⟨by decide, by decide, by decide, by decide, by decide, by decide, by decide⟩

/-! ## Multiple SPI handles (use_multiple_spi_objects) -/

/-- The four single-byte writes of use_multiple_spi_objects: byte i of the
standard message written through handle 1 (spi), 2 (spi2), 3 (spi3) and 1
again, spi2 and spi3 being created and destroyed around their writes.
Each entry is (handle, bytes written). -/
def use_multiple_spi_objects_writes : List (Nat × List Nat) :=
  [(1, standardMessageBytes.take 1),
   (2, (standardMessageBytes.drop 1).take 1),
   (3, (standardMessageBytes.drop 2).take 1),
   (1, (standardMessageBytes.drop 3).take 1)]

/-- The same four single-byte transfers issued through transfer_and_wait
in async_use_multiple_spi_objects. -/
def async_use_multiple_spi_objects_writes : List (Nat × List Nat) :=
  [(1, standardMessageBytes.take 1),
   (2, (standardMessageBytes.drop 1).take 1),
   (3, (standardMessageBytes.drop 2).take 1),
   (1, (standardMessageBytes.drop 3).take 1)]

/-- Modelled from the spec: the capture device concatenates the wire bytes
of successive transfers in issue order, regardless of which handle issued
each transfer. -/
def capturedBytes (writes : List (Nat × List Nat)) : List Nat :=
  (writes.map Prod.snd).flatten

/-- Claim C7: the four single-byte transfers split 1/1/1/1 across three
bus handle instances concatenate, at the verification channel, to exactly
the original four-byte standard pattern — no corruption or reordering —
in both the synchronous and the asynchronous variant, and the host
verification answers pass for both. -/
theorem multiple_handles_concat :
    capturedBytes use_multiple_spi_objects_writes = standardMessageBytes
    ∧ capturedBytes async_use_multiple_spi_objects_writes = standardMessageBytes
    ∧ use_multiple_spi_objects_writes.map Prod.fst = [1, 2, 3, 1]
    ∧ use_multiple_spi_objects_writes.map (fun w => w.snd.length) = [1, 1, 1, 1]
    ∧ verify_standard_message (capturedBytes use_multiple_spi_objects_writes) = true
    ∧ verify_standard_message (capturedBytes async_use_multiple_spi_objects_writes) = true := by
  refine ⟨by decide, by decide, by decide, by decide, by decide, by decide⟩

/-! ## I2C negative acknowledgment (from src/Software/I2CBasicTest.cpp) -/

/-- Modelled from the spec: the result enumeration of blocking and
asynchronous I2C operations (mbed I2C::Result): a negative acknowledgment
is an ordinary enumerated result value, distinct from ACK, not a fault. -/
inductive I2CResult where
  | ACK
  | NACK
  | TIMEOUT
  | OTHER_ERROR
deriving DecidableEq, Repr

/-- Modelled from the spec: a blocking write transaction addressed to
`addr`, of any data length including zero: the result is ACK iff the
addressed peer responds, otherwise the NACK result value. -/
def i2c_write (ack : Nat → Bool) (addr _dataLen : Nat) : I2CResult :=
  if ack addr then .ACK else .NACK

/-- Modelled from the spec: a blocking read transaction addressed to
`addr`. -/
def i2c_read (ack : Nat → Bool) (addr _dataLen : Nat) : I2CResult :=
  if ack addr then .ACK else .NACK

/-- Modelled from the spec: writing the single address byte `b` after a
start condition (the single-byte API). -/
def i2c_write_byte (ack : Nat → Bool) (b : Nat) : I2CResult :=
  if ack b then .ACK else .NACK

/-- Modelled from the spec: the asynchronous transfer_and_wait transaction
addressed to `addr`. -/
def i2c_transfer_and_wait (ack : Nat → Bool) (addr _txLen _rxLen : Nat) : I2CResult :=
  if ack addr then .ACK else .NACK

/-- 8-bit I2C address of the 24FC02 EEPROM on the test shield. -/
def EEPROM_I2C_ADDRESS : Nat := 0xA0

/-- Embedded check of test_incorrect_addr_single_byte: writing the address
byte 0x20 yields NACK. -/
def test_incorrect_addr_single_byte (ack : Nat → Bool) : Bool :=
  i2c_write_byte ack 0x20 == .NACK

/-- Embedded check of test_incorrect_addr_zero_len_transaction: a
zero-length write transaction to 0x20 yields NACK. -/
def test_incorrect_addr_zero_len_transaction (ack : Nat → Bool) : Bool :=
  i2c_write ack 0x20 0 == .NACK

/-- Embedded check of test_incorrect_addr_write_transaction: a two-byte
write transaction to 0x20 yields NACK. -/
def test_incorrect_addr_write_transaction (ack : Nat → Bool) : Bool :=
  i2c_write ack 0x20 2 == .NACK

/-- Embedded check of test_incorrect_addr_read_transaction: a one-byte
read at EEPROM_I2C_ADDRESS | 1 yields NACK. -/
def test_incorrect_addr_read_transaction (ack : Nat → Bool) : Bool :=
  i2c_read ack (EEPROM_I2C_ADDRESS ||| 1) 1 == .NACK

/-- Embedded check of test_incorrect_addr_async: a two-byte asynchronous
write transaction to 0x20 yields NACK. -/
def test_incorrect_addr_async (ack : Nat → Bool) : Bool :=
  i2c_transfer_and_wait ack 0x20 2 0 == .NACK

/-- Claim C8: every blocking or asynchronous bus operation addressed to a
peer that rejects the transaction — a zero-length transaction, a write
transaction, a read to a non-responding address, the single-byte API, or
the asynchronous API — returns the distinguishable NACK result value
(distinct from ACK), not a fatal fault, so all the incorrect-address test
checks pass by branching on expected-vs-actual. -/
theorem bus_nack_ordinary_result (ack : Nat → Bool)
    (h20 : ack 0x20 = false)
    (hRead : ack (EEPROM_I2C_ADDRESS ||| 1) = false) :
    test_incorrect_addr_single_byte ack = true
    ∧ test_incorrect_addr_zero_len_transaction ack = true
    ∧ test_incorrect_addr_write_transaction ack = true
    ∧ test_incorrect_addr_read_transaction ack = true
    ∧ test_incorrect_addr_async ack = true
    ∧ I2CResult.NACK ≠ I2CResult.ACK := by
  refine ⟨?_, ?_, ?_, ?_, ?_, by decide⟩
  · simp [test_incorrect_addr_single_byte, i2c_write_byte, h20]
  · simp [test_incorrect_addr_zero_len_transaction, i2c_write, h20]
  · simp [test_incorrect_addr_write_transaction, i2c_write, h20]
  · simp [test_incorrect_addr_read_transaction, i2c_read, hRead]
  · simp [test_incorrect_addr_async, i2c_transfer_and_wait, h20]

/-- Claim C8 witness: on a bus where only the EEPROM address 0xA0
responds, all five incorrect-address operations return NACK. -/
theorem bus_nack_ordinary_result_witness :
    test_incorrect_addr_single_byte (fun a => a == 0xA0) = true
    ∧ test_incorrect_addr_zero_len_transaction (fun a => a == 0xA0) = true
    ∧ test_incorrect_addr_write_transaction (fun a => a == 0xA0) = true
    ∧ test_incorrect_addr_read_transaction (fun a => a == 0xA0) = true
    ∧ test_incorrect_addr_async (fun a => a == 0xA0) = true
    ∧ I2CResult.NACK ≠ I2CResult.ACK :=
  bus_nack_ordinary_result (fun a => a == 0xA0) (by decide) (by decide)

end CITestShield
